import Mathlib

/-!
Verification of the real-time voice-session engine of the AI-interviewer
repository, against its specification.  The definitions below are a shallow
embedding of `src/components/InterviewRoom.tsx` (the Session Controller,
Playback Scheduler, Turn Assembler and Audio Capture Encoder live in the
`startSession` callbacks, the countdown effect and `handleEndInterview`).
Times and durations are modelled as rationals (the browser exposes them as
seconds on the `AudioContext` clock), wall-clock timestamps as integers
(epoch milliseconds), and PCM samples as rationals.
-/

set_option linter.unusedVariables false

namespace VoiceEngine

/-! ## Playback Scheduler

State embedded from the refs `nextStartTimeRef`, `sourcesRef` and the
`isAISpeaking` React state of `InterviewRoom.tsx`.  Active sources are
modelled as a list of identifiers, with a counter supplying fresh ids for
newly created `AudioBufferSourceNode`s. -/

structure SchedState where
  nextStartTime : ℚ
  sources : List ℕ
  nextId : ℕ
  isAISpeaking : Bool
  deriving Repr, DecidableEq

/-- Initial scheduler state: `nextStartTimeRef = useRef(0)`, empty source
set, not speaking. -/
def initSched : SchedState :=
  { nextStartTime := 0, sources := [], nextId := 0, isAISpeaking := false }

/-- The audio branch of `onmessage` (InterviewRoom.tsx lines 239-256):
`nextStartTime := max(nextStartTime, ctx.currentTime)`, start the new source
at that instant, advance `nextStartTime` by the chunk duration, add the
source to the active set, mark the agent as speaking.  Returns the new state
together with the scheduled start time. -/
def scheduleChunk (st : SchedState) (now dur : ℚ) : SchedState × ℚ :=
  let t := max st.nextStartTime now
  ({ nextStartTime := t + dur
     sources := st.sources ++ [st.nextId]
     nextId := st.nextId + 1
     isAISpeaking := true }, t)

/-- The `interrupted` branch of `onmessage` (lines 277-282): stop every
active source, clear the set, reset `nextStartTime` to `0`, clear the
speaking flag.  Returns the new state together with the list of sources
that received a `stop()` call. -/
def handleInterrupted (st : SchedState) : SchedState × List ℕ :=
  ({ nextStartTime := 0, sources := [], nextId := st.nextId,
     isAISpeaking := false }, st.sources)

/-- The `ended` listener of a scheduled source (lines 249-252): remove the
source from the active set; when the set becomes empty, clear the
agent-speaking flag. -/
def sourceEnded (st : SchedState) (id : ℕ) : SchedState :=
  let remaining := st.sources.filter (fun s => s ≠ id)
  { st with sources := remaining,
            isAISpeaking := if remaining.length = 0 then false else st.isAISpeaking }

/-- Run a sequence of audio chunks `(now, dur)` (arrival clock reading and
chunk duration) through the scheduler with no interruption in between,
collecting the scheduled start times. -/
def runChunks (st : SchedState) : List (ℚ × ℚ) → List ℚ
  | [] => []
  | c :: rest =>
      let p := scheduleChunk st c.1 c.2
      p.2 :: runChunks p.1 rest

theorem runChunks_length (st : SchedState) (cs : List (ℚ × ℚ)) :
    (runChunks st cs).length = cs.length := by
  induction cs generalizing st with
  | nil => rfl
  | cons c rest ih => simp [runChunks, ih]

/-- Key recurrence: each scheduled start is the max of the previous chunk's
end and the arrival-time clock reading. -/
theorem runChunks_get_succ (st : SchedState) (cs : List (ℚ × ℚ))
    (i : ℕ) (c₁ c₂ : ℚ × ℚ) (t₁ t₂ : ℚ)
    (hc₁ : cs.get? i = some c₁) (hc₂ : cs.get? (i + 1) = some c₂)
    (ht₁ : (runChunks st cs).get? i = some t₁)
    (ht₂ : (runChunks st cs).get? (i + 1) = some t₂) :
    t₂ = max (t₁ + c₁.2) c₂.1 := by
  induction cs generalizing st i with
  | nil => simp at hc₁
  | cons c rest ih =>
      cases i with
      | zero =>
          cases rest with
          | nil => simp at hc₂
          | cons c' rest' =>
              simp [runChunks, scheduleChunk] at ht₁ ht₂ hc₁ hc₂
              subst ht₁ hc₁ hc₂
              simpa [max_comm] using ht₂.symm
      | succ j =>
          simp only [runChunks, List.get?_cons_succ] at ht₁ ht₂ hc₁ hc₂
          exact ih _ j hc₁ hc₂ ht₁ ht₂

/-- C1 (counterexample): the claim asserts `start[i+1] = start[i] + d[i]`
for every pair of consecutive chunks with no interruption in between,
under arbitrary arrival jitter.  Two chunks of duration 1, the first
arriving at clock time 0 and the second at clock time 5 (after the first
has finished playing), are scheduled at starts `[0, 5]`: the second start
is `max(0 + 1, 5) = 5`, not `0 + 1`. -/
theorem c1_gapless_counterexample :
    runChunks initSched [((0 : ℚ), 1), (5, 1)] = [0, 5] ∧ ¬ ((5 : ℚ) = 0 + 1) := by
  constructor
  · simp [runChunks, scheduleChunk, initSched]
  · norm_num

/-- C1 (amended): chunk `i+1` is scheduled at
`max(end of chunk i, arrival clock time)`; consequently the start times are
gapless (`start[i+1] = start[i] + d[i]`) whenever chunk `i+1` arrives no
later than the end of chunk `i`, and a chunk never starts earlier than the
device clock's current instant. -/
theorem c1_gapless_schedule (st : SchedState) (cs : List (ℚ × ℚ))
    (i : ℕ) (c₁ c₂ : ℚ × ℚ) (t₁ t₂ : ℚ)
    (hc₁ : cs.get? i = some c₁) (hc₂ : cs.get? (i + 1) = some c₂)
    (ht₁ : (runChunks st cs).get? i = some t₁)
    (ht₂ : (runChunks st cs).get? (i + 1) = some t₂) :
    t₂ = max (t₁ + c₁.2) c₂.1 ∧
    (c₂.1 ≤ t₁ + c₁.2 → t₂ = t₁ + c₁.2) ∧
    c₂.1 ≤ t₂ := by
  have h := runChunks_get_succ st cs i c₁ c₂ t₁ t₂ hc₁ hc₂ ht₁ ht₂
  refine ⟨h, fun hle => ?_, ?_⟩
  · rw [h, max_eq_left hle]
  · rw [h]; exact le_max_right _ _

theorem c1_gapless_schedule_witness :
    (1 : ℚ) = max ((0 : ℚ) + 1) 0 ∧
    ((0 : ℚ) ≤ 0 + 1 → (1 : ℚ) = 0 + 1) ∧ (0 : ℚ) ≤ 1 :=
  c1_gapless_schedule initSched [((0 : ℚ), 1), (0, 1)] 0
    ((0 : ℚ), 1) ((0 : ℚ), 1) 0 1 rfl rfl
    (by norm_num [runChunks, scheduleChunk, initSched])
    (by norm_num [runChunks, scheduleChunk, initSched])

/-- C2: processing the `interrupted` signal stops every active source (the
`stop()` calls cover exactly the previous active set), leaves the active
set empty, resets `nextStartTime` to 0 and clears the agent-speaking flag;
a chunk arriving immediately afterwards at clock time `now ≥ 0` is
scheduled exactly at `now`, not relative to the pre-interruption
baseline. -/
theorem c2_interrupt_resets (st : SchedState) (now dur : ℚ) (hnow : 0 ≤ now) :
    (handleInterrupted st).2 = st.sources ∧
    (handleInterrupted st).1.sources = [] ∧
    (handleInterrupted st).1.nextStartTime = 0 ∧
    (handleInterrupted st).1.isAISpeaking = false ∧
    (scheduleChunk (handleInterrupted st).1 now dur).2 = now := by
  refine ⟨rfl, rfl, rfl, rfl, ?_⟩
  simp [scheduleChunk, handleInterrupted, max_eq_right hnow]

theorem c2_interrupt_resets_witness :
    (scheduleChunk (handleInterrupted
        { nextStartTime := 7, sources := [0, 1], nextId := 2,
          isAISpeaking := true }).1 3 1).2 = 3 :=
  (c2_interrupt_resets
    { nextStartTime := 7, sources := [0, 1], nextId := 2, isAISpeaking := true }
    3 1 (by norm_num)).2.2.2.2

/-! ## Turn Assembler

Embedded from the refs `aiBufferRef`, `candidateBufferRef` and the
`transcript` React state, together with the `inputTranscription`,
`outputTranscription` and `turnComplete` branches of `onmessage`
(InterviewRoom.tsx lines 258-276). -/

inductive Speaker where
  | AI
  | Candidate
  deriving Repr, DecidableEq

structure TurnRecord where
  speaker : Speaker
  text : String
  timestamp : ℤ
  deriving Repr, DecidableEq

structure TurnState where
  aiBuffer : String
  candidateBuffer : String
  transcript : List TurnRecord
  deriving Repr, DecidableEq

/-- The three transcription-related message kinds.  `turnComplete` carries
the two `Date.now()` readings taken when building the candidate and the
agent record (the candidate's is taken first in the array literal). -/
inductive TurnEvent where
  | inputDelta (t : String)
  | outputDelta (t : String)
  | turnComplete (tsC tsA : ℤ)
  deriving Repr, DecidableEq

/-- One `onmessage` transcription branch.  A transcription delta appends to
the corresponding accumulator; `turnComplete` appends the candidate record
(if its accumulator is non-empty, JS truthiness) then the agent record (if
non-empty) to the transcript and clears both accumulators. -/
def turnStep (st : TurnState) : TurnEvent → TurnState
  | .inputDelta t => { st with candidateBuffer := st.candidateBuffer ++ t }
  | .outputDelta t => { st with aiBuffer := st.aiBuffer ++ t }
  | .turnComplete tsC tsA =>
      let appended :=
        if st.candidateBuffer ≠ "" ∨ st.aiBuffer ≠ "" then
          (if st.candidateBuffer ≠ "" then
            [{ speaker := .Candidate, text := st.candidateBuffer,
               timestamp := tsC }] else []) ++
          (if st.aiBuffer ≠ "" then
            [{ speaker := .AI, text := st.aiBuffer, timestamp := tsA }] else [])
        else []
      { aiBuffer := "", candidateBuffer := "",
        transcript := st.transcript ++ appended }

def runTurn (st : TurnState) (evs : List TurnEvent) : TurnState :=
  evs.foldl turnStep st

def isDelta : TurnEvent → Bool
  | .inputDelta _ => true
  | .outputDelta _ => true
  | .turnComplete _ _ => false

/-- The candidate-side delta texts of an event sequence, in arrival order. -/
def candTexts : List TurnEvent → List String :=
  List.filterMap fun e =>
    match e with
    | .inputDelta t => some t
    | _ => none

/-- The agent-side delta texts of an event sequence, in arrival order. -/
def aiTexts : List TurnEvent → List String :=
  List.filterMap fun e =>
    match e with
    | .outputDelta t => some t
    | _ => none

def concatTexts (l : List String) : String := l.foldr (· ++ ·) ""

theorem runTurn_deltas (st : TurnState) (evs : List TurnEvent)
    (hd : ∀ e ∈ evs, isDelta e = true) :
    (runTurn st evs).candidateBuffer
        = st.candidateBuffer ++ concatTexts (candTexts evs) ∧
    (runTurn st evs).aiBuffer = st.aiBuffer ++ concatTexts (aiTexts evs) ∧
    (runTurn st evs).transcript = st.transcript := by
  induction evs generalizing st with
  | nil => simp [runTurn, concatTexts, candTexts, aiTexts]
  | cons e rest ih =>
      cases e with
      | inputDelta t =>
          have h := ih (turnStep st (.inputDelta t))
            (fun e he => hd e (List.mem_cons_of_mem _ he))
          simp only [runTurn, List.foldl_cons] at h ⊢
          simp only [candTexts, aiTexts, List.filterMap_cons] at *
          refine ⟨?_, ?_, ?_⟩
          · rw [h.1]; simp [turnStep, concatTexts, String.append_assoc]
          · rw [h.2.1]; simp [turnStep]
          · rw [h.2.2]; simp [turnStep]
      | outputDelta t =>
          have h := ih (turnStep st (.outputDelta t))
            (fun e he => hd e (List.mem_cons_of_mem _ he))
          simp only [runTurn, List.foldl_cons] at h ⊢
          simp only [candTexts, aiTexts, List.filterMap_cons] at *
          refine ⟨?_, ?_, ?_⟩
          · rw [h.1]; simp [turnStep]
          · rw [h.2.1]; simp [turnStep, concatTexts, String.append_assoc]
          · rw [h.2.2]; simp [turnStep]
      | turnComplete tsC tsA =>
          have := hd _ (List.mem_cons_self _ _)
          simp [isDelta] at this

theorem empty_string_append (s : String) : "" ++ s = s := rfl

/-- C3: after any interleaving of candidate and agent transcription deltas
followed by one turn-complete signal, the transcript grows by exactly the
records of the non-empty accumulators — the candidate record (text = the
concatenation of the candidate deltas in arrival order, if non-empty)
followed by the agent record (likewise); in particular the number of
appended records is 0, 1 or 2 according to the non-empty accumulators, and
when both are non-empty the Candidate record immediately precedes the AI
record. -/
theorem c3_turn_commit (st₀ : TurnState) (evs : List TurnEvent) (tsC tsA : ℤ)
    (hC : st₀.candidateBuffer = "") (hA : st₀.aiBuffer = "")
    (hd : ∀ e ∈ evs, isDelta e = true) :
    (turnStep (runTurn st₀ evs) (.turnComplete tsC tsA)).transcript
      = st₀.transcript ++
        ((if concatTexts (candTexts evs) ≠ "" then
            [{ speaker := Speaker.Candidate, text := concatTexts (candTexts evs),
               timestamp := tsC }] else []) ++
         (if concatTexts (aiTexts evs) ≠ "" then
            [{ speaker := Speaker.AI, text := concatTexts (aiTexts evs),
               timestamp := tsA }] else [])) ∧
    (turnStep (runTurn st₀ evs) (.turnComplete tsC tsA)).transcript.length
      = st₀.transcript.length +
        ((if concatTexts (candTexts evs) ≠ "" then 1 else 0) +
         (if concatTexts (aiTexts evs) ≠ "" then 1 else 0)) ∧
    (concatTexts (candTexts evs) ≠ "" → concatTexts (aiTexts evs) ≠ "" →
      (turnStep (runTurn st₀ evs) (.turnComplete tsC tsA)).transcript
        = st₀.transcript ++
          [{ speaker := Speaker.Candidate, text := concatTexts (candTexts evs),
             timestamp := tsC },
           { speaker := Speaker.AI, text := concatTexts (aiTexts evs),
             timestamp := tsA }]) := by
  obtain ⟨h1, h2, h3⟩ := runTurn_deltas st₀ evs hd
  rw [hC, empty_string_append] at h1
  rw [hA, empty_string_append] at h2
  by_cases hc : concatTexts (candTexts evs) = "" <;>
    by_cases ha : concatTexts (aiTexts evs) = "" <;>
      simp [turnStep, h1, h2, h3, hc, ha]

theorem c3_turn_commit_witness :
    (turnStep (runTurn { aiBuffer := "", candidateBuffer := "", transcript := [] }
        [TurnEvent.inputDelta "Hel", TurnEvent.inputDelta "lo",
         TurnEvent.outputDelta "Hi there"])
        (TurnEvent.turnComplete 1 2)).transcript
      = [{ speaker := Speaker.Candidate, text := "Hello", timestamp := 1 },
         { speaker := Speaker.AI, text := "Hi there", timestamp := 2 }] := by
  have h := c3_turn_commit
    { aiBuffer := "", candidateBuffer := "", transcript := [] }
    [TurnEvent.inputDelta "Hel", TurnEvent.inputDelta "lo",
     TurnEvent.outputDelta "Hi there"] 1 2 rfl rfl (by decide)
  exact h.1.trans (by decide)

/-- C8: immediately after every turn-complete signal both accumulators are
empty, regardless of their prior content and of whether any record was
appended. -/
theorem c8_accumulators_cleared (st : TurnState) (tsC tsA : ℤ) :
    (turnStep st (.turnComplete tsC tsA)).candidateBuffer = "" ∧
    (turnStep st (.turnComplete tsC tsA)).aiBuffer = "" :=
  ⟨rfl, rfl⟩

/-- Chronology side condition for one event: a turn-complete signal's
`Date.now()` readings do not precede any timestamp already in the
transcript, and the candidate's reading (taken first) does not exceed the
agent's. -/
def chronOk (st : TurnState) : TurnEvent → Prop
  | .turnComplete tsC tsA =>
      (∀ r ∈ st.transcript, r.timestamp ≤ tsC) ∧ tsC ≤ tsA
  | _ => True

theorem mem_of_mem_getLast? {α : Type _} {l : List α} {x : α}
    (h : x ∈ l.getLast?) : x ∈ l := by
  obtain ⟨hne, rfl⟩ := List.mem_getLast?_eq_getLast h
  exact List.getLast_mem hne

/-- C9: the transcript is append-only — every transcription event either
leaves it unchanged or appends records at the end — and, given that the
transcript's timestamps are currently non-decreasing and the event's clock
readings are chronological, the timestamps remain non-decreasing, so record
order = append order = chronological order. -/
theorem c9_transcript_append_only (st : TurnState) (e : TurnEvent)
    (hmono : List.Chain' (fun a b => a.timestamp ≤ b.timestamp) st.transcript)
    (hchron : chronOk st e) :
    ((turnStep st e).transcript.take st.transcript.length = st.transcript ∧
      st.transcript.length ≤ (turnStep st e).transcript.length) ∧
    List.Chain' (fun a b => a.timestamp ≤ b.timestamp) (turnStep st e).transcript := by
  cases e with
  | inputDelta t => exact ⟨⟨by simp [turnStep], le_refl _⟩, hmono⟩
  | outputDelta t => exact ⟨⟨by simp [turnStep], le_refl _⟩, hmono⟩
  | turnComplete tsC tsA =>
      obtain ⟨hub, hCA⟩ := hchron
      refine ⟨⟨?_, ?_⟩, ?_⟩
      · show (st.transcript ++ _).take st.transcript.length = st.transcript
        exact List.take_left _ _
      · show st.transcript.length ≤ (st.transcript ++ _).length
        simp
      show List.Chain' _ (st.transcript ++ _)
      rw [List.chain'_append]
      refine ⟨hmono, ?_, ?_⟩
      · by_cases hc : st.candidateBuffer = "" <;>
          by_cases ha : st.aiBuffer = "" <;>
            simp [hc, ha, hCA]
      · intro x hx y hy
        have hxm : x ∈ st.transcript := mem_of_mem_getLast? hx
        have hxC : x.timestamp ≤ tsC := hub x hxm
        by_cases hc : st.candidateBuffer = "" <;>
          by_cases ha : st.aiBuffer = "" <;>
            simp [hc, ha] at hy <;>
              subst hy <;>
                first
                  | exact hxC
                  | exact hxC.trans hCA

theorem c9_transcript_append_only_witness :
    ((turnStep
          { aiBuffer := "ok", candidateBuffer := "yes",
            transcript := [{ speaker := Speaker.AI, text := "q", timestamp := 4 }] }
          (TurnEvent.turnComplete 6 7)).transcript.take
        ([{ speaker := Speaker.AI, text := "q", timestamp := 4 }] : List TurnRecord).length
        = [{ speaker := Speaker.AI, text := "q", timestamp := 4 }] ∧
      ([{ speaker := Speaker.AI, text := "q", timestamp := 4 }] : List TurnRecord).length
        ≤ (turnStep
            { aiBuffer := "ok", candidateBuffer := "yes",
              transcript := [{ speaker := Speaker.AI, text := "q", timestamp := 4 }] }
            (TurnEvent.turnComplete 6 7)).transcript.length) ∧
    List.Chain' (fun a b => a.timestamp ≤ b.timestamp)
      (turnStep
          { aiBuffer := "ok", candidateBuffer := "yes",
            transcript := [{ speaker := Speaker.AI, text := "q", timestamp := 4 }] }
          (TurnEvent.turnComplete 6 7)).transcript :=
  c9_transcript_append_only
    { aiBuffer := "ok", candidateBuffer := "yes",
      transcript := [{ speaker := Speaker.AI, text := "q", timestamp := 4 }] }
    (TurnEvent.turnComplete 6 7) (by simp) ⟨by decide, by decide⟩

/-! ## Audio Capture Encoder

Embedded from `scriptProcessor.onaudioprocess` (InterviewRoom.tsx lines
225-234).  Samples are rationals; `inputData[i] * 32768` multiplies a float
by a power of two, which is exact, so the rational model is faithful. -/

/-- Truncation toward zero: JavaScript's ToInt16 abstract operation first
truncates the float before reducing modulo 2^16. -/
def truncQ (q : ℚ) : ℤ := if 0 ≤ q then ⌊q⌋ else ⌈q⌉

/-- Storing an integer into an `Int16Array` element: reduce modulo 2^16 and
reinterpret in the signed range [-32768, 32767]. -/
def toInt16 (n : ℤ) : ℤ := (n + 32768) % 65536 - 32768

/-- Line 228, `int16[i] = inputData[i] * 32768`: linear scaling by 32768
with no clipping guard, then Int16Array element storage. -/
def convSample (x : ℚ) : ℤ := toInt16 (truncQ (x * 32768))

/-- The `Uint8Array` view of one Int16Array element: its two bytes in
little-endian order. -/
def int16Bytes (v : ℤ) : List ℕ :=
  [(v % 65536).toNat % 256, (v % 65536).toNat / 256]

/-- The frame's byte buffer, `new Uint8Array(int16.buffer)`. -/
def frameBytes (samples : List ℚ) : List ℕ :=
  ((samples.map convSample).map int16Bytes).flatten

def b64Alphabet : List Char :=
  "ABCDEFGHIJKLMNOPQRSTUVWXYZabcdefghijklmnopqrstuvwxyz0123456789+/".toList

def b64Char (n : ℕ) : Char := b64Alphabet.getD n '?'

/-- Modelled from the spec: the `encode` helper imported from
`utils/audio-utils` is not under `src/`; the spec describes it as base64
framing of the PCM byte buffer for a text-safe transport.  This is standard
base64 of a byte sequence with `=` padding. -/
def base64Encode : List ℕ → String
  | [] => ""
  | [a] => String.mk [b64Char (a / 4), b64Char (a % 4 * 16), '=', '=']
  | [a, b] => String.mk [b64Char (a / 4), b64Char (a % 4 * 16 + b / 16),
      b64Char (b % 16 * 4), '=']
  | a :: b :: c :: rest =>
      String.mk [b64Char (a / 4), b64Char (a % 4 * 16 + b / 16),
        b64Char (b % 16 * 4 + c / 64), b64Char (c % 64)] ++ base64Encode rest

/-- One outbound realtime message (`pcmBlob`, lines 229-232). -/
structure OutMsg where
  data : String
  mimeType : String
  deriving Repr, DecidableEq

/-- One `onaudioprocess` callback: convert the frame's samples, serialize
to bytes, base64-encode and wrap with the fixed mimeType; the message is
sent in the same callback (`sessionPromise.then(s => s.sendRealtimeInput)`),
with no state carried over to the next frame. -/
def processFrame (samples : List ℚ) : OutMsg :=
  { data := base64Encode (frameBytes samples)
    mimeType := "audio/pcm;rate=16000" }

/-! ## Session Controller

Embedded from the countdown effect (lines 141-151), `handleEndInterview`
(lines 153-172), the `onopen` callback (lines 219-237) and the Stop/onclose
handlers.  The React phase is tracked by `isActive` (`Open` iff `isActive`);
`pipelineOn` records whether the script processor has been created and
connected — which happens only in `onopen` and is never undone by
`handleEndInterview` (the processor stays connected until the component
unmounts). -/

structure SessionRecord where
  startTime : ℤ
  durationLimit : ℤ
  transcript : List TurnRecord
  recordingUrl : String
  deriving Repr, DecidableEq

structure CtrlState where
  isActive : Bool
  timeLeft : ℤ
  pipelineOn : Bool
  transcript : List TurnRecord
  sentMsgs : List OutMsg
  records : List SessionRecord
  deriving Repr, DecidableEq

/-- Initial state: `timeLeft = 25 * 60`, inactive, no capture pipeline. -/
def initCtrl : CtrlState :=
  { isActive := false, timeLeft := 25 * 60, pipelineOn := false,
    transcript := [], sentMsgs := [], records := [] }

/-- The remote channel close attempt inside `handleEndInterview`:
`sessionRef.current.close()` may throw. -/
def closeChannel (fails : Bool) : Except String Unit :=
  if fails then .error "close failed" else .ok ()

/-- `handleEndInterview` (lines 153-172): set inactive, attempt the channel
close inside `try { ... } catch (e) {}` (a failure is swallowed), finalize
the recording, and produce the SessionRecord with
`startTime = Date.now() - (25 * 60 - timeLeft) * 1000` and
`durationLimit = 25 * 60`. -/
def handleEndInterview (st : CtrlState) (closeFails : Bool) (now : ℤ)
    (recUrl : String) : CtrlState :=
  let stAfterClose :=
    match closeChannel closeFails with
    | .ok _ => { st with isActive := false }
    | .error _ => { st with isActive := false }
  { stAfterClose with
    records := stAfterClose.records ++
      [{ startTime := now - (25 * 60 - stAfterClose.timeLeft) * 1000,
         durationLimit := 25 * 60,
         transcript := stAfterClose.transcript,
         recordingUrl := recUrl }] }

/-- Controller events: the channel's opened acknowledgment, a capture frame
becoming ready, a countdown tick (one second elapsing, carrying the
environment data a triggered teardown would use), an explicit stop click,
and the remote channel closing. -/
inductive CtrlEvent where
  | openAck
  | frameReady (samples : List ℚ)
  | tick (closeFails : Bool) (now : ℤ) (recUrl : String)
  | stopClick (closeFails : Bool) (now : ℤ) (recUrl : String)
  | channelClosed
  deriving DecidableEq

/-- One controller step.  `onopen` activates the session and connects the
capture pipeline; `onaudioprocess` forwards the frame whenever the
processor is connected (the callback contains no phase check); a tick
decrements the countdown while active and positive, and the countdown
effect fires `handleEndInterview` when `timeLeft` is 0 while active; the
Stop button (rendered only while active) fires `handleEndInterview`;
`onclose` merely deactivates. -/
def ctrlStep (st : CtrlState) : CtrlEvent → CtrlState
  | .openAck => { st with isActive := true, pipelineOn := true }
  | .frameReady samples =>
      if st.pipelineOn then
        { st with sentMsgs := st.sentMsgs ++ [processFrame samples] }
      else st
  | .tick closeFails now recUrl =>
      if st.isActive ∧ 0 < st.timeLeft then
        if st.timeLeft - 1 = 0 then
          handleEndInterview { st with timeLeft := st.timeLeft - 1 }
            closeFails now recUrl
        else { st with timeLeft := st.timeLeft - 1 }
      else if st.isActive ∧ st.timeLeft = 0 then
        handleEndInterview st closeFails now recUrl
      else st
  | .stopClick closeFails now recUrl =>
      if st.isActive then handleEndInterview st closeFails now recUrl else st
  | .channelClosed => { st with isActive := false }

def runCtrl (st : CtrlState) (evs : List CtrlEvent) : CtrlState :=
  evs.foldl ctrlStep st

theorem handleEnd_isActive (st : CtrlState) (cf : Bool) (now : ℤ) (u : String) :
    (handleEndInterview st cf now u).isActive = false := by
  cases cf <;> rfl

theorem handleEnd_timeLeft (st : CtrlState) (cf : Bool) (now : ℤ) (u : String) :
    (handleEndInterview st cf now u).timeLeft = st.timeLeft := by
  cases cf <;> rfl

theorem handleEnd_pipelineOn (st : CtrlState) (cf : Bool) (now : ℤ) (u : String) :
    (handleEndInterview st cf now u).pipelineOn = st.pipelineOn := by
  cases cf <;> rfl

theorem handleEnd_sentMsgs (st : CtrlState) (cf : Bool) (now : ℤ) (u : String) :
    (handleEndInterview st cf now u).sentMsgs = st.sentMsgs := by
  cases cf <;> rfl

theorem handleEnd_records (st : CtrlState) (cf : Bool) (now : ℤ) (u : String) :
    (handleEndInterview st cf now u).records
      = st.records ++
        [{ startTime := now - (25 * 60 - st.timeLeft) * 1000,
           durationLimit := 25 * 60,
           transcript := st.transcript, recordingUrl := u }] := by
  cases cf <;> rfl

theorem runCtrl_no_open_sends (evs : List CtrlEvent) (st : CtrlState)
    (hp : st.pipelineOn = false)
    (hno : ∀ e ∈ evs, e ≠ CtrlEvent.openAck) :
    (runCtrl st evs).sentMsgs = st.sentMsgs ∧
    (runCtrl st evs).pipelineOn = false := by
  induction evs generalizing st with
  | nil => exact ⟨rfl, hp⟩
  | cons e rest ih =>
      have hrest : ∀ e' ∈ rest, e' ≠ CtrlEvent.openAck :=
        fun e' he' => hno e' (List.mem_cons_of_mem _ he')
      have hstep : (ctrlStep st e).sentMsgs = st.sentMsgs ∧
          (ctrlStep st e).pipelineOn = false := by
        cases e with
        | openAck => exact absurd rfl (hno _ (List.mem_cons_self _ _))
        | frameReady samples => simp [ctrlStep, hp]
        | tick cf now u =>
            simp only [ctrlStep]
            split_ifs <;>
              simp [handleEnd_sentMsgs, handleEnd_pipelineOn, hp]
        | stopClick cf now u =>
            simp only [ctrlStep]
            split_ifs <;>
              simp [handleEnd_sentMsgs, handleEnd_pipelineOn, hp]
        | channelClosed => exact ⟨rfl, hp⟩
      have h := ih (ctrlStep st e) hstep.2 hrest
      exact ⟨h.1.trans hstep.1, h.2⟩

theorem runCtrl_inactive_frozen (evs : List CtrlEvent) (st : CtrlState)
    (ha : st.isActive = false)
    (hno : ∀ e ∈ evs, e ≠ CtrlEvent.openAck) :
    (runCtrl st evs).records = st.records ∧
    (runCtrl st evs).isActive = false := by
  induction evs generalizing st with
  | nil => exact ⟨rfl, ha⟩
  | cons e rest ih =>
      have hrest : ∀ e' ∈ rest, e' ≠ CtrlEvent.openAck :=
        fun e' he' => hno e' (List.mem_cons_of_mem _ he')
      have hstep : (ctrlStep st e).records = st.records ∧
          (ctrlStep st e).isActive = false := by
        cases e with
        | openAck => exact absurd rfl (hno _ (List.mem_cons_self _ _))
        | frameReady samples =>
            simp only [ctrlStep]
            split_ifs <;> simp [ha]
        | tick cf now u => simp [ctrlStep, ha]
        | stopClick cf now u => simp [ctrlStep, ha]
        | channelClosed => exact ⟨rfl, rfl⟩
      have h := ih (ctrlStep st e) hstep.2 hrest
      exact ⟨h.1.trans hstep.1, h.2⟩

/-- C4 (counterexample): after the session has left `Open` — here via an
explicit stop, which sets the phase inactive but leaves the script
processor connected — a frame produced by the capture pipeline is still
forwarded: the sent-frame count grows by one, so frames produced while the
phase is not `Open` are not dropped. -/
theorem c4_phase_gating_counterexample :
    (runCtrl initCtrl [CtrlEvent.openAck, CtrlEvent.stopClick false 100 ""]).isActive
      = false ∧
    (ctrlStep (runCtrl initCtrl [CtrlEvent.openAck, CtrlEvent.stopClick false 100 ""])
        (CtrlEvent.frameReady [0])).sentMsgs.length
      = (runCtrl initCtrl
          [CtrlEvent.openAck, CtrlEvent.stopClick false 100 ""]).sentMsgs.length + 1 :=
  ⟨rfl, rfl⟩

/-- C4 (amended): no frame captured before the channel's opened
acknowledgment is ever sent — the capture pipeline only exists once
`onopen` runs, so a trace without the opened acknowledgment sends nothing —
but after the session leaves `Open` the `onaudioprocess` callback (which
contains no phase check and stays connected) keeps forwarding every frame. -/
theorem c4_frame_gating (evs : List CtrlEvent) (st : CtrlState)
    (samples : List ℚ)
    (hno : ∀ e ∈ evs, e ≠ CtrlEvent.openAck)
    (hp : st.pipelineOn = true) (hna : st.isActive = false) :
    (runCtrl initCtrl evs).sentMsgs = [] ∧
    (ctrlStep st (CtrlEvent.frameReady samples)).sentMsgs
      = st.sentMsgs ++ [processFrame samples] := by
  constructor
  · exact (runCtrl_no_open_sends evs initCtrl rfl hno).1
  · simp [ctrlStep, hp]

theorem c4_frame_gating_witness :
    (runCtrl initCtrl [CtrlEvent.tick false 0 ""]).sentMsgs = [] ∧
    (ctrlStep
        { isActive := false, timeLeft := 0, pipelineOn := true,
          transcript := [], sentMsgs := [], records := [] }
        (CtrlEvent.frameReady [1])).sentMsgs
      = ([] : List OutMsg) ++ [processFrame [1]] :=
  c4_frame_gating [CtrlEvent.tick false 0 ""]
    { isActive := false, timeLeft := 0, pipelineOn := true,
      transcript := [], sentMsgs := [], records := [] }
    [1] (by decide) rfl rfl

/-- C5: the SessionRecord produced at teardown carries
`durationLimit = 1500` seconds and
`startTime = now - (durationLimit - remainingTime) * 1000`, i.e. when `k`
countdown seconds have elapsed (`remainingTime = 1500 - k`) the start time
is reconstructed retroactively as `now - k * 1000`. -/
theorem c5_record_retroactive_start (st : CtrlState) (cf : Bool) (now : ℤ)
    (u : String) (k : ℤ) (hk : st.timeLeft = 25 * 60 - k) :
    (handleEndInterview st cf now u).records
      = st.records ++
        [{ startTime := now - (1500 - st.timeLeft) * 1000,
           durationLimit := 1500,
           transcript := st.transcript, recordingUrl := u }] ∧
    now - (1500 - st.timeLeft) * 1000 = now - k * 1000 := by
  constructor
  · rw [handleEnd_records]; norm_num
  · rw [hk]; ring

theorem c5_record_retroactive_start_witness :
    (handleEndInterview
        { isActive := true, timeLeft := 1440, pipelineOn := true,
          transcript := [], sentMsgs := [], records := [] }
        false 2000000 "u").records
      = ([] : List SessionRecord) ++
        [{ startTime := 2000000 - (1500 - 1440) * 1000,
           durationLimit := 1500,
           transcript := [], recordingUrl := "u" }] ∧
    (2000000 : ℤ) - (1500 - 1440) * 1000 = 2000000 - 60 * 1000 :=
  c5_record_retroactive_start
    { isActive := true, timeLeft := 1440, pipelineOn := true,
      transcript := [], sentMsgs := [], records := [] }
    false 2000000 "u" 60 (by norm_num)

/-- C6: teardown produces exactly one SessionRecord: `handleEndInterview`
appends exactly one record and its result does not depend on whether the
channel close throws (the failure is swallowed by the `try`/`catch`); the
countdown reaching exactly zero while active triggers exactly one record,
as does an explicit stop while active; and no further record is produced
afterwards (short of a new session being opened), since teardown leaves the
session inactive. -/
theorem c6_teardown_exactly_once (st : CtrlState) (cf : Bool) (now : ℤ)
    (u : String) (evs : List CtrlEvent)
    (hno : ∀ e ∈ evs, e ≠ CtrlEvent.openAck) :
    (handleEndInterview st cf now u).records.length = st.records.length + 1 ∧
    handleEndInterview st true now u = handleEndInterview st false now u ∧
    (st.isActive = true → st.timeLeft = 1 →
      (ctrlStep st (CtrlEvent.tick cf now u)).records.length
        = st.records.length + 1) ∧
    (st.isActive = true →
      (ctrlStep st (CtrlEvent.stopClick cf now u)).records.length
        = st.records.length + 1) ∧
    (runCtrl (handleEndInterview st cf now u) evs).records
      = (handleEndInterview st cf now u).records := by
  refine ⟨?_, rfl, ?_, ?_, ?_⟩
  · rw [handleEnd_records]; simp
  · intro ha ht
    simp [ctrlStep, ha, ht, handleEnd_records]
  · intro ha
    simp [ctrlStep, ha, handleEnd_records]
  · exact (runCtrl_inactive_frozen evs _ (handleEnd_isActive st cf now u) hno).1

theorem c6_teardown_exactly_once_witness :
    (handleEndInterview initCtrl true 5 "").records.length
      = initCtrl.records.length + 1 ∧
    handleEndInterview initCtrl true 5 "" = handleEndInterview initCtrl false 5 "" ∧
    (initCtrl.isActive = true → initCtrl.timeLeft = 1 →
      (ctrlStep initCtrl (CtrlEvent.tick true 5 "")).records.length
        = initCtrl.records.length + 1) ∧
    (initCtrl.isActive = true →
      (ctrlStep initCtrl (CtrlEvent.stopClick true 5 "")).records.length
        = initCtrl.records.length + 1) ∧
    (runCtrl (handleEndInterview initCtrl true 5 "")
        [CtrlEvent.tick false 9 "", CtrlEvent.channelClosed]).records
      = (handleEndInterview initCtrl true 5 "").records :=
  c6_teardown_exactly_once initCtrl true 5 ""
    [CtrlEvent.tick false 9 "", CtrlEvent.channelClosed] (by decide)

/-- C7: a frame processed while the capture pipeline is connected and the
session is `Open` results in exactly one immediately-forwarded message and
no other state change (no buffering beyond the current frame); the
message's `mimeType` is `"audio/pcm;rate=16000"` and its payload is the
base64 encoding of the little-endian bytes of each sample converted by
linear scaling `sample * 32768` (truncated, stored modulo 2^16 with no
clipping guard). -/
theorem c7_capture_forwarding (st : CtrlState) (samples : List ℚ)
    (hp : st.pipelineOn = true) (ha : st.isActive = true)
    (hin : ∀ s ∈ samples, -1 ≤ s ∧ s ≤ 1) :
    ctrlStep st (CtrlEvent.frameReady samples)
      = { st with sentMsgs := st.sentMsgs ++ [processFrame samples] } ∧
    processFrame samples
      = { data := base64Encode
            (((samples.map fun s => toInt16 (truncQ (s * 32768))).map
                fun v => [(v % 65536).toNat % 256, (v % 65536).toNat / 256]).flatten)
          mimeType := "audio/pcm;rate=16000" } := by
  constructor
  · simp [ctrlStep, hp]
  · rfl

theorem c7_capture_forwarding_witness :
    ctrlStep
        { isActive := true, timeLeft := 100, pipelineOn := true,
          transcript := [], sentMsgs := [], records := [] }
        (CtrlEvent.frameReady [1, -1/2])
      = { isActive := true, timeLeft := 100, pipelineOn := true,
          transcript := [], sentMsgs := [] ++ [processFrame [1, -1/2]],
          records := [] } ∧
    processFrame [1, -1/2]
      = { data := base64Encode
            ((([(1 : ℚ), -1/2].map fun s => toInt16 (truncQ (s * 32768))).map
                fun v => [(v % 65536).toNat % 256, (v % 65536).toNat / 256]).flatten)
          mimeType := "audio/pcm;rate=16000" } :=
  c7_capture_forwarding
    { isActive := true, timeLeft := 100, pipelineOn := true,
      transcript := [], sentMsgs := [], records := [] }
    [1, -1/2] rfl rfl (by norm_num)

/-- C10: an input sample of exactly 1.0 is scaled to 32768, which exceeds
the signed 16-bit maximum and is stored as -32768 (wrap, not the saturated
32767); symmetrically a sample just below -1.0 wraps to 32767; and the
Int16Array storage is modular with period 2^16. -/
theorem c10_wraparound :
    convSample 1 = -32768 ∧
    convSample (-32769 / 32768 : ℚ) = 32767 ∧
    convSample 1 ≠ 32767 ∧
    ∀ n : ℤ, toInt16 (n + 65536) = toInt16 n := by
  refine ⟨?_, ?_, ?_, fun n => ?_⟩
  · norm_num [convSample, truncQ, toInt16]
  · unfold convSample truncQ toInt16
    have harg : ((-32769 : ℚ) / 32768) * 32768 = ((-32769 : ℤ) : ℚ) := by
      norm_num
    rw [harg, if_neg (by norm_num), Int.ceil_intCast]
    decide
  · norm_num [convSample, truncQ, toInt16]
  · unfold toInt16
    omega

end VoiceEngine
